import Mathlib

/-!
Verification of relros: RELRO for statically linked executables.

A shallow embedding of `src/relros.c` (the 64-bit build: `ElfW(x)` is `Elf64_x`,
`sizeof(uintptr_t) == 8`, little-endian).

Conventions of the embedding.

* Bytes and machine words are natural numbers; arithmetic the source performs on
  `uint64_t`, `size_t` or `uint32_t` is reduced modulo `2^64` resp. `2^32`.
* The mapped buffer `mem` is a list of bytes: the bytes of the file followed by the
  zero fill up to the end of the last page, as `mmap` provides it.  The ELF header
  fields and the program header table are read from and stored into these bytes at
  their offsets, so a store through `obj->phdr[i]` and a store through `ptr` act on
  the same memory.  The symbol table and the string table, which the tool only
  reads, and only before its first store, are carried as typed arrays.
* A load or store of `inject_relro_code` outside the mapping is a memory fault that
  kills the process (`Outcome.fault`).  A store past the last byte of the file but
  inside the mapping succeeds and never reaches a file.
* A local variable that is read without having been assigned holds an arbitrary
  value supplied by the environment (`Env.injection_size0`).
* Each `write` returns what the environment says: failure, or the number of bytes
  written, which may be less than asked for.
* Diagnostic output (`printf`, `fprintf`, `perror`) is not modelled.
-/

namespace Relros

/-! ## Constants -/

/-- Constant `PADDING_SIZE` (line 49). -/
def PADDING_SIZE : Nat := 1024

/-- Constant `PAGE_SIZE` (line 51). -/
def PAGE_SIZE : Nat := 4096

/-- Constant `GENERIC_START_MAIN_PATCH_OFFSET` (line 399). -/
def GENERIC_START_MAIN_PATCH_OFFSET : Nat := 580

/-- Constant `TRAMPOLINE_OFFSET` (line 400). -/
def TRAMPOLINE_OFFSET : Nat := GENERIC_START_MAIN_PATCH_OFFSET

/-- Program header type `PT_LOAD` of `<elf.h>`. -/
def PT_LOAD : Nat := 1

/-- Program header type `PT_DYNAMIC` of `<elf.h>`. -/
def PT_DYNAMIC : Nat := 2

/-- Program header type `PT_NOTE` of `<elf.h>`. -/
def PT_NOTE : Nat := 4

/-- Program header type `PT_GNU_RELRO` of `<elf.h>`. -/
def PT_GNU_RELRO : Nat := 0x6474e552

/-- Segment flag `PF_X` of `<elf.h>`. -/
def PF_X : Nat := 1

/-- Segment flag `PF_R` of `<elf.h>`. -/
def PF_R : Nat := 4

/-- Protection `PROT_READ` of `<sys/mman.h>`. -/
def PROT_READ : Nat := 1

/-- Number of values of a 64-bit word. -/
def U64 : Nat := 2 ^ 64

/-- Number of values of a 32-bit word. -/
def U32 : Nat := 2 ^ 32

/-- Macro `PAGE_ALIGN(x)` (line 53) on a 64-bit operand: `x & ~(PAGE_SIZE - 1)`, the
complement of the `int` constant being sign-extended to 64 bits. -/
def PAGE_ALIGN (x : Nat) : Nat := x &&& (U64 - 1 - (PAGE_SIZE - 1))

/-! ## Data model -/

/-- Type `Elf64_Phdr`: one program header entry. -/
structure Phdr where
  p_type : Nat
  p_flags : Nat
  p_offset : Nat
  p_vaddr : Nat
  p_paddr : Nat
  p_filesz : Nat
  p_memsz : Nat
  p_align : Nat
  deriving DecidableEq, Repr, Inhabited

/-- Type `Elf64_Sym`: one symbol table entry. -/
structure Sym where
  st_name : Nat
  st_info : Nat
  st_other : Nat
  st_shndx : Nat
  st_value : Nat
  st_size : Nat
  deriving DecidableEq, Repr, Inhabited

/-- Type `elfobj2_t` (lines 69-85), restricted to the fields the modelled functions use.
`mem` is the mapping, `phdr` the index in `mem` the pointer `obj->phdr` points to,
`symtab` has `symcount` entries. -/
structure elfobj2 where
  mem : List Nat
  phdr : Nat
  symtab : List Sym
  strtab : List Nat
  dynamic_linked : Bool
  text_offset : Nat
  text_base : Nat
  size : Nat
  deriving DecidableEq, Repr

/-- Content of an ELF file: its bytes, together with the `.symtab` and `.strtab`
tables the tool reads from them. -/
structure ElfFile where
  bytes : List Nat
  symtab : List Sym
  strtab : List Nat
  deriving DecidableEq, Repr

/-- The part of the file system the tool touches: the file at `argv[1]` (`none` when
it cannot be opened and mapped) and the file at `TMP_FILE` (`none` when absent). -/
structure World where
  target : Option ElfFile
  tmp : Option ElfFile
  deriving DecidableEq, Repr

/-- Everything the tool takes from its surroundings during injection: the size
`(char *)&delta_end - (char *)&unused_delta_begin`; the bytes of the tool's own image
starting at `&enable_relro`; the value the local `injection_size` holds before any
assignment; whether `open` and `rename` succeed; and the result of each of the three
`write` calls in source order (`none` is the error return, `some k` says `k` bytes
were written). -/
structure Env where
  relro_stub_size : Nat
  code : Nat → Nat
  injection_size0 : Nat
  open_ok : Bool
  write1 : Option Nat
  write_main : Option Nat
  write2 : Option Nat
  rename_ok : Bool

/-- How a call of a modelled C function ends: it returns a `bool`, or the process is
killed by a memory fault. -/
inductive Outcome where
  | ret (b : Bool)
  | fault
  deriving DecidableEq, Repr

/-! ## Bytes -/

/-- The `n` little-endian bytes of `v`. -/
def le_bytes : Nat → Nat → List Nat
  | 0, _ => []
  | n + 1, v => v % 256 :: le_bytes n (v / 256)

/-- The value of a little-endian byte sequence. -/
def le_value : List Nat → Nat
  | [] => 0
  | b :: bs => b + 256 * le_value bs

/-- Store the bytes `bs` into `mem` from index `off` on; the length of `mem` stays, a
byte that would fall behind the end of `mem` is not stored. -/
def store_bytes : List Nat → Nat → List Nat → List Nat
  | [], _, _ => []
  | m :: ms, 0, [] => m :: ms
  | _ :: ms, 0, b :: bs => b :: store_bytes ms 0 bs
  | m :: ms, off + 1, bs => m :: store_bytes ms off bs

/-- The byte at index `k` of a buffer. -/
def byte_at (mem : List Nat) (k : Nat) : Nat := mem.getD k 0 % 256

/-- Whether index `k` lies inside the buffer `mem`. -/
def mapped (mem : List Nat) (k : Nat) : Bool := !(mem.drop k).isEmpty

/-- The `n`-byte little-endian load at index `off`. -/
def load_le (mem : List Nat) (off n : Nat) : Nat :=
  le_value (((mem.drop off).take n).map (fun b => b % 256))

/-- The `n`-byte little-endian store of `v` at index `off`. -/
def store_le (mem : List Nat) (off n v : Nat) : List Nat :=
  store_bytes mem off (le_bytes n v)

/-- The field `e_phoff` of the ELF header at the start of a buffer. -/
def e_phoff (mem : List Nat) : Nat := load_le mem 32 8

/-- The field `e_phnum` of the ELF header at the start of a buffer. -/
def e_phnum (mem : List Nat) : Nat := load_le mem 56 2

/-- The `Elf64_Phdr` stored at index `b`. -/
def read_phdr (mem : List Nat) (b : Nat) : Phdr :=
  { p_type := load_le mem b 4, p_flags := load_le mem (b + 4) 4,
    p_offset := load_le mem (b + 8) 8, p_vaddr := load_le mem (b + 16) 8,
    p_paddr := load_le mem (b + 24) 8, p_filesz := load_le mem (b + 32) 8,
    p_memsz := load_le mem (b + 40) 8, p_align := load_le mem (b + 48) 8 }

/-- The array `phdr[0 .. e_phnum)` of a buffer, `phdr` pointing to index `phoff`. -/
def phdr_table (mem : List Nat) (phoff : Nat) : List Phdr :=
  (List.range (e_phnum mem)).map (fun i => read_phdr mem (phoff + 56 * i))

/-- The program header table of a file. -/
def file_table (f : ElfFile) : List Phdr := phdr_table f.bytes (e_phoff f.bytes)

/-- The C string that starts a byte sequence: the bytes before the first NUL.  The end
of the sequence counts as a terminator. -/
def cstring (s : List Nat) : List Nat := s.takeWhile (fun b => b != 0)

/-- The test `strcmp(&strtab[off], name) == 0`. -/
def strcmp_eq (strtab : List Nat) (off : Nat) (name : List Nat) : Bool :=
  cstring (strtab.drop off) == cstring name

/-- The C literal `"main"`. -/
def name_main : List Nat := [109, 97, 105, 110]

/-- The C literal `"generic_start_main"`. -/
def name_generic_start_main : List Nat :=
  [103, 101, 110, 101, 114, 105, 99, 95, 115, 116, 97, 114, 116, 95, 109, 97, 105, 110]

/-! ## The tool: lookup helpers -/

/-- Function `_elf_text_pointer` (lines 126-135).  The result is the index `offset` of the
returned pointer `&obj->mem[offset]`; `none` is `NULL`.  Both the offset and
`obj->size - 1` are computed in `uint64_t`. -/
def _elf_text_pointer (obj : elfobj2) (addr : Nat) : Option Nat :=
  let offset := (obj.text_offset + addr + (U64 - obj.text_base % U64)) % U64
  if offset > (obj.size + (U64 - 1)) % U64 then none else some offset

/-- The loop of `_elf_symbol_by_name` over the entries not yet visited; `out` is the
current content of the output parameter. -/
def symbol_loop (strtab name : List Nat) (out : Sym) : List Sym → Bool × Sym
  | [] => (false, out)
  | s :: rest =>
    if strcmp_eq strtab s.st_name name then (true, s)
    else symbol_loop strtab name out rest

/-- Function `_elf_symbol_by_name` (lines 137-153): the returned `bool` and the content of
`*out` afterwards. -/
def _elf_symbol_by_name (obj : elfobj2) (name : List Nat) (out : Sym) : Bool × Sym :=
  symbol_loop obj.strtab name out obj.symtab

/-- The program header loop of `_elf_open_object` (lines 202-209) over the entries not
yet visited; the state is `(text_offset, text_base, dynamic_linked)`. -/
def open_loop : List Phdr → Nat × Nat × Bool → Nat × Nat × Bool
  | [], st => st
  | p :: rest, (toff, tbase, dyn) =>
    let st1 : Nat × Nat :=
      if p.p_type = PT_LOAD ∧ p.p_offset = 0 then (p.p_offset, p.p_vaddr) else (toff, tbase)
    let dyn1 : Bool := if p.p_type = PT_DYNAMIC then true else dyn
    open_loop rest (st1.1, st1.2, dyn1)

/-- The zero bytes `mmap` adds after a file of `n` bytes to fill its last page. -/
def slack (n : Nat) : Nat := (PAGE_SIZE - n % PAGE_SIZE) % PAGE_SIZE

/-- Function `_elf_open_object` (lines 164-235): `none` is the `false` return (the file cannot
be opened, inspected or mapped).  The object starts zeroed (`memset`); the loop of
lines 202-209 reads the table `phdr[0 .. e_phnum)` of the mapping, which it does
not change; the section header scan of lines 214-221 is represented by the file's
`symtab` and `strtab`. -/
def _elf_open_object (w : World) : Option elfobj2 :=
  match w.target with
  | none => none
  | some f =>
    let mem := f.bytes ++ List.replicate (slack f.bytes.length) 0
    let st := open_loop (phdr_table mem (e_phoff mem)) (0, 0, false)
    some { mem := mem, phdr := e_phoff mem, symtab := f.symtab, strtab := f.strtab,
           dynamic_linked := st.2.2, text_offset := st.1, text_base := st.2.1,
           size := f.bytes.length }

/-! ## The injected stub -/

/-- What the stub `enable_relro` computes from a program header table: the `mprotect`
system calls it issues, in order, as `(address, length, protection)`; whether it
executes `int3`; the address it dereferences at `process_main`; and the value it
loads there to call (`none` when the load is not reached or faults). -/
structure StubRun where
  mprotect : List (Nat × Nat × Nat)
  trap : Bool
  stub_vaddr : Nat
  main_addr : Option Nat
  deriving DecidableEq, Repr

/-- The first loop of `enable_relro` (lines 285-297) over the entries not yet visited;
the state is `(relro_vaddr, found_data, stub_vaddr)`.  The assignment to `relro_size`
(line 288) has no effect on anything the stub does and is left out. -/
def relro_loop : List Phdr → Nat × Bool × Nat → Nat × Bool × Nat
  | [], st => st
  | p :: rest, (relro_vaddr, found_data, stub_vaddr) =>
    if p.p_type = PT_GNU_RELRO then
      relro_loop rest (p.p_vaddr, found_data, stub_vaddr)
    else if p.p_type = PT_LOAD ∧ p.p_offset ≠ 0 then
      if found_data = true then (relro_vaddr, found_data, p.p_vaddr)
      else relro_loop rest (relro_vaddr, true, stub_vaddr)
    else relro_loop rest (relro_vaddr, found_data, stub_vaddr)

/-- The second loop of `enable_relro` (lines 319-335) over the entries not yet
visited; the state is `(data_vaddr, stub_vaddr)`. -/
def data_loop : List Phdr → Nat × Nat → Nat × Nat
  | [], st => st
  | p :: rest, (data_vaddr, stub_vaddr) =>
    if p.p_type = PT_LOAD ∧ p.p_offset ≠ 0 then
      if data_vaddr = 0 then data_loop rest (p.p_vaddr, stub_vaddr)
      else if p.p_vaddr ≠ 0 ∧ data_vaddr ≠ 0 then (data_vaddr, p.p_vaddr)
      else data_loop rest (data_vaddr, p.p_vaddr)
    else data_loop rest (data_vaddr, stub_vaddr)

/-- Function `enable_relro` (lines 255-386).  `phdr` is the program header table the stub
finds in the process image at the fixed load base, `load32` the 4-byte load
`*(uint32_t *)a` from the process image.  `int3` ends the run. -/
def enable_relro (phdr : List Phdr) (load32 : Nat → Option Nat) : StubRun :=
  let st := relro_loop phdr (0, false, 0)
  if st.1 > 0 then
    { mprotect := [(PAGE_ALIGN st.1, 4096, PROT_READ)], trap := false,
      stub_vaddr := st.2.2, main_addr := load32 st.2.2 }
  else
    let st2 := data_loop phdr (0, st.2.2)
    if st2.1 = 0 then
      { mprotect := [], trap := true, stub_vaddr := st2.2, main_addr := none }
    else
      { mprotect := [(st2.1 &&& (U64 - 1 - 4095), 4096, PROT_READ)], trap := false,
        stub_vaddr := st2.2, main_addr := load32 st2.2 }

/-! ## The stub inside a process -/

/-- The address at which the stub expects the ELF header of the running image
(line 260, 64-bit case). -/
def LOAD_BASE : Nat := 0x400000

/-- Model of the program loader: the byte of the process image of the loaded file `f` at
virtual address `a`.  The first loadable entry of the file's own table whose
file-backed range `[p_vaddr, p_vaddr + p_filesz)` holds `a` supplies the file byte at
`p_offset + (a - p_vaddr)`; `none` when no entry does or the file ends before. -/
def image_byte (f : ElfFile) (a : Nat) : Option Nat :=
  match (file_table f).find? (fun p =>
      decide (p.p_type = PT_LOAD ∧ p.p_vaddr ≤ a ∧ a < p.p_vaddr + p.p_filesz)) with
  | none => none
  | some p => (f.bytes.drop (p.p_offset + (a - p.p_vaddr))).head?

/-- The `n`-byte little-endian load at virtual address `a` from the process image;
`none` (a fault) when one of the bytes is not mapped. -/
def image_load (f : ElfFile) (a n : Nat) : Option Nat :=
  if (List.range n).all (fun k => (image_byte f (a + k)).isSome) then
    some (le_value ((List.range n).map (fun k => (image_byte f (a + k)).getD 0 % 256)))
  else none

/-- The `Elf64_Phdr` at virtual address `b` of the process image. -/
def image_phdr (f : ElfFile) (b : Nat) : Option Phdr :=
  match image_load f b 4, image_load f (b + 4) 4, image_load f (b + 8) 8,
    image_load f (b + 16) 8, image_load f (b + 24) 8, image_load f (b + 32) 8,
    image_load f (b + 40) 8, image_load f (b + 48) 8 with
  | some t, some fl, some o, some v, some pa, some fs, some ms, some al =>
    some ⟨t, fl, o, v, pa, fs, ms, al⟩
  | _, _, _, _, _, _, _, _ => none

/-- The entries `i, i + 1, ...` (`n` of them) of the table at virtual address `tab`. -/
def image_entries (f : ElfFile) (tab : Nat) : Nat → Nat → Option (List Phdr)
  | 0, _ => some []
  | n + 1, i =>
    match image_phdr f (tab + 56 * i), image_entries f tab n (i + 1) with
    | some p, some ps => some (p :: ps)
    | _, _ => none

/-- The program header table the stub finds: `e_phoff` and `e_phnum` of the header at
`LOAD_BASE` and the entries at `LOAD_BASE + e_phoff` (lines 259-262).  `none` when the
header or an entry is not mapped; the stub is then taken to fault, although it faults
only on an entry its loops reach. -/
def process_table (f : ElfFile) : Option (List Phdr) :=
  match image_load f (LOAD_BASE + 32) 8, image_load f (LOAD_BASE + 56) 2 with
  | some phoff, some n => image_entries f (LOAD_BASE + phoff) n 0
  | _, _ => none

/-- What a run of the stub does inside a process. -/
structure ProcessRun where
  mprotect : List (Nat × Nat × Nat)
  trap : Bool
  killed : Bool
  stub_vaddr : Nat
  main_addr : Option Nat
  deriving DecidableEq, Repr

/-- The stub running in the process image of the loaded file `f`, the instructions it
executes after its `mprotect` call lying at the addresses `[lo, hi)`.  The run is
killed by a fault when the table at `LOAD_BASE` cannot be read, when the page the
stub has just made read-only holds instructions it still has to execute, or when the
load `*(uint32_t *)stub_vaddr` is not mapped; only otherwise does it call the value
it loaded. -/
def run_stub (f : ElfFile) (lo hi : Nat) : ProcessRun :=
  match process_table f with
  | none => ⟨[], false, true, 0, none⟩
  | some t =>
    let r := enable_relro t (fun a => image_load f a 4)
    if r.mprotect.any (fun c => decide (c.1 < hi ∧ lo < c.1 + c.2.1)) then
      ⟨r.mprotect, r.trap, true, r.stub_vaddr, none⟩
    else
      ⟨r.mprotect, r.trap, !r.trap && r.main_addr.isNone, r.stub_vaddr, r.main_addr⟩

/-! ## The injector -/

/-- The stores of lines 475-484 into the entry at index `b` of the buffer, in source
order; `p_memsz` and `p_paddr` are loaded back from the fields just stored. -/
def rewrite_note (mem : List Nat) (b old_size relro_stub_size : Nat) : List Nat :=
  let m1 := store_le mem b 4 PT_LOAD
  let m2 := store_le m1 (b + 16) 8 (0xc000000 + old_size)
  let m3 := store_le m2 (b + 32) 8 (relro_stub_size + PADDING_SIZE)
  let m4 := store_le m3 (b + 40) 8 (load_le m3 (b + 32) 8)
  let m5 := store_le m4 (b + 4) 4 (PF_R ||| PF_X)
  let m6 := store_le m5 (b + 48) 8 0x200000
  let m7 := store_le m6 (b + 24) 8 (load_le m6 (b + 16) 8)
  store_le m7 (b + 8) 8 old_size

/-- The loop at lines 472-486 from index `i` on, `phoff` being the index `obj->phdr`
points to.  `e_phnum` is read from the buffer at every test.  The last argument is
the local `injection_size`: `none` while it has not been assigned.  The result is
`none` when an entry that is read or rewritten does not lie inside the mapping.  The
first argument bounds the number of iterations; 65536 is never exhausted, since
`e_phnum` has 16 bits. -/
def note_loop (phoff old_size relro_stub_size : Nat) :
    Nat → Nat → List Nat → Option Nat → Option (List Nat × Option Nat)
  | 0, _, mem, inj => some (mem, inj)
  | fuel + 1, i, mem, inj =>
    if i < e_phnum mem then
      if mapped mem (phoff + 56 * i + 3) = false then none
      else if load_le mem (phoff + 56 * i) 4 ≠ PT_NOTE then
        note_loop phoff old_size relro_stub_size fuel (i + 1) mem inj
      else if mapped mem (phoff + 56 * i + 55) = false then none
      else
        note_loop phoff old_size relro_stub_size fuel (i + 1)
          (rewrite_note mem (phoff + 56 * i) old_size relro_stub_size)
          (some relro_stub_size)
    else some (mem, inj)

/-- The trampoline stores of lines 442-445 at `ptr = &mem[off]`: `push imm32; ret`,
the immediate being `0xc000000 + old_size + sizeof(uint32_t)` truncated to
`uint32_t`. -/
def write_trampoline (mem : List Nat) (off old_size : Nat) : List Nat :=
  let m1 := mem.set (off + TRAMPOLINE_OFFSET) 0x68
  let m2 := store_bytes m1 (off + TRAMPOLINE_OFFSET + 1)
    (le_bytes 4 ((0xc000000 + old_size + 4) % U32))
  m2.set (off + TRAMPOLINE_OFFSET + 5) 0xc3

/-- The `n` bytes `write(fd, (char *)&enable_relro, n)` is asked to take from the
tool's image. -/
def stub_bytes (env : Env) (n : Nat) : List Nat := (List.range n).map env.code

/-- What a `write` of `data` appends to a file when it returns `res`. -/
def written (res : Option Nat) (data : List Nat) : List Nat :=
  match res with
  | none => []
  | some k => data.take k

/-- Result of `inject_relro_code`: how the call ended, the object and the files at
that point. -/
structure InjectResult where
  outcome : Outcome
  obj : elfobj2
  world : World

/-- Function `inject_relro_code` (lines 402-522).  The two symbol lookups start from locals
whose content is irrelevant (`default`), since they are read only after a hit. -/
def inject_relro_code (env : Env) (obj : elfobj2) (w : World) : InjectResult :=
  let old_size := obj.size
  let r1 := _elf_symbol_by_name obj name_generic_start_main default
  if r1.1 = false then ⟨.ret false, obj, w⟩ else
  let generic_start_main := r1.2
  let r2 := _elf_symbol_by_name obj name_main default
  if r2.1 = false then ⟨.ret false, obj, w⟩ else
  let main_sym := r2.2
  match _elf_text_pointer obj generic_start_main.st_value with
  | none => ⟨.ret false, obj, w⟩
  | some off =>
    if mapped obj.mem (off + TRAMPOLINE_OFFSET + 5) = false then ⟨.fault, obj, w⟩ else
    let mem1 := write_trampoline obj.mem off old_size
    match note_loop obj.phdr old_size env.relro_stub_size 65536 0 mem1 none with
    | none => ⟨.fault, { obj with mem := mem1 }, w⟩
    | some (mem2, inj) =>
      let obj1 : elfobj2 := { obj with mem := mem2 }
      if env.open_ok = false then ⟨.ret false, obj1, w⟩ else
      if env.write1 = none then
        ⟨.ret false, obj1, { w with tmp := some ⟨[], obj.symtab, obj.strtab⟩ }⟩ else
      let b1 := written env.write1 (mem2.take old_size)
      let injection_size := inj.getD env.injection_size0
      let b2 := b1 ++ written env.write_main (le_bytes 4 main_sym.st_value)
      if env.write2 = none then
        ⟨.ret false, obj1, { w with tmp := some ⟨b2, obj.symtab, obj.strtab⟩ }⟩ else
      let out : ElfFile :=
        ⟨b2 ++ written env.write2 (stub_bytes env injection_size), obj.symtab, obj.strtab⟩
      if env.rename_ok = false then ⟨.ret false, obj1, { w with tmp := some out }⟩ else
      ⟨.ret true, obj1, { target := some out, tmp := none }⟩

/-- How the process ends: with an exit status, or killed by a memory fault. -/
inductive Exit where
  | status (code : Nat)
  | fault
  deriving DecidableEq, Repr

/-- Result of `main`: how the process ended, the mapped object when one was opened
(as it stood last), and the files. -/
structure MainResult where
  exit : Exit
  obj : Option elfobj2
  world : World

/-- Function `main` (lines 523-553); `w.target` is the file at `argv[1]`.  `EXIT_FAILURE` is 1;
falling off the end of `main` is exit status 0. -/
def main (env : Env) (argc : Nat) (w : World) : MainResult :=
  if argc < 2 then ⟨.status 1, none, w⟩ else
  match _elf_open_object w with
  | none => ⟨.status 1, none, w⟩
  | some obj =>
    if obj.dynamic_linked = true then ⟨.status 1, some obj, w⟩ else
    let r := inject_relro_code env obj w
    match r.outcome with
    | .fault => ⟨.fault, some r.obj, r.world⟩
    | .ret false => ⟨.status 1, some r.obj, r.world⟩
    | .ret true => ⟨.status 0, some r.obj, r.world⟩

/-! ## Concrete images used to exercise the model -/

/-- A text segment at file offset 0, mapped at the static load base. -/
def seg_text : Phdr := ⟨PT_LOAD, 5, 0, 0x400000, 0x400000, 0x200, 0x200, 0x200000⟩

/-- A data segment at a nonzero file offset. -/
def seg_data : Phdr := ⟨PT_LOAD, 6, 0x100, 0x600100, 0x600100, 0x100, 0x200, 0x200000⟩

/-- A further loadable segment at a nonzero file offset. -/
def seg_data2 : Phdr := ⟨PT_LOAD, 6, 0x180, 0x700180, 0x700180, 0x40, 0x40, 0x200000⟩

/-- A note segment. -/
def seg_note : Phdr := ⟨PT_NOTE, 4, 0x40, 0x400040, 0x400040, 0x20, 0x20, 4⟩

/-- A second note segment. -/
def seg_note2 : Phdr := ⟨PT_NOTE, 4, 0x60, 0x400060, 0x400060, 0x20, 0x20, 4⟩

/-- A GNU relro segment on the page after the one the data segment starts in. -/
def seg_relro : Phdr := ⟨PT_GNU_RELRO, 4, 0x100, 0x602000, 0x602000, 0x80, 0x80, 1⟩

/-- The segment a note entry becomes when a 600-byte file is injected with a 32-byte
stub. -/
def seg_stub : Phdr := ⟨PT_LOAD, 5, 600, 0xc000258, 0xc000258, 1056, 1056, 0x200000⟩

/-- The 56 bytes of an `Elf64_Phdr`. -/
def phdr_bytes (p : Phdr) : List Nat :=
  le_bytes 4 p.p_type ++ le_bytes 4 p.p_flags ++ le_bytes 8 p.p_offset ++
  le_bytes 8 p.p_vaddr ++ le_bytes 8 p.p_paddr ++ le_bytes 8 p.p_filesz ++
  le_bytes 8 p.p_memsz ++ le_bytes 8 p.p_align

/-- The bytes of a table. -/
def table_bytes : List Phdr → List Nat
  | [] => []
  | p :: ps => phdr_bytes p ++ table_bytes ps

/-- The 600 bytes of a file: an ELF header with `e_phoff = 64` and `e_phnum` the
length of the table, the table, then zeros. -/
def demo_bytes (t : List Phdr) : List Nat :=
  List.replicate 32 0 ++ le_bytes 8 64 ++ List.replicate 16 0 ++ le_bytes 2 t.length ++
  List.replicate 6 0 ++ table_bytes t ++ List.replicate (600 - 64 - 56 * t.length) 0

/-- A string table holding the empty name, `main` and `generic_start_main`. -/
def demo_strtab : List Nat := 0 :: (name_main ++ 0 :: (name_generic_start_main ++ [0]))

/-- A symbol table: the null symbol, `main` at 0x400100, `generic_start_main` at
0x400008. -/
def demo_symtab : List Sym :=
  [⟨0, 0, 0, 0, 0, 0⟩, ⟨1, 18, 0, 1, 0x400100, 16⟩, ⟨6, 18, 0, 1, 0x400008, 700⟩]

/-- A symbol table whose `generic_start_main` lies 256 bytes into the text. -/
def late_symtab : List Sym :=
  [⟨0, 0, 0, 0, 0, 0⟩, ⟨1, 18, 0, 1, 0x400100, 16⟩, ⟨6, 18, 0, 1, 0x400100, 700⟩]

/-- A 600-byte file with the given program header table. -/
def demo_file (t : List Phdr) : ElfFile := ⟨demo_bytes t, demo_symtab, demo_strtab⟩

/-- The files before the tool runs on `demo_file t`. -/
def demo_world (t : List Phdr) : World := ⟨some (demo_file t), none⟩

/-- The object `_elf_open_object` builds from `demo_file t` when the table holds
`seg_text` and no dynamic entry. -/
def demo_obj (t : List Phdr) : elfobj2 :=
  ⟨demo_bytes t ++ List.replicate 3496 0, 64, demo_symtab, demo_strtab, false, 0,
    0x400000, 600⟩

/-- A 32-byte stub, system calls that all succeed, writes that are complete, and 0 in
the unassigned `injection_size`. -/
def demo_env : Env :=
  ⟨32, fun k => (k + 0x55) % 256, 0, true, some 600, some 4, some 32, true⟩

/-- The layout text, data, note, relro. -/
def table_one_note : List Phdr := [seg_text, seg_data, seg_note, seg_relro]

/-- The table of an injected four-entry image: text, data, stub, then relro. -/
def table_relro_last : List Phdr := [seg_text, seg_data, seg_stub, seg_relro]

/-- A table with two note entries. -/
def table_two_notes : List Phdr := [seg_text, seg_data, seg_note, seg_note2]

/-- A table without a note entry. -/
def table_no_note : List Phdr := [seg_text, seg_data, seg_relro]

/-- The layout text, data, a further loadable segment, note. -/
def table_three_loads : List Phdr := [seg_text, seg_data, seg_data2, seg_note]

/-- The file of `table_one_note` with `generic_start_main` 256 bytes into the text. -/
def late_file : ElfFile := ⟨demo_bytes table_one_note, late_symtab, demo_strtab⟩

/-- The files before the tool runs on `late_file`. -/
def late_world : World := ⟨some late_file, none⟩

/-- The object `_elf_open_object` builds from `late_file`. -/
def late_obj : elfobj2 :=
  ⟨demo_bytes table_one_note ++ List.replicate 3496 0, 64, late_symtab, demo_strtab, false,
    0, 0x400000, 600⟩

/-- The environment `demo_env` with 7 in the unassigned `injection_size`. -/
def seven_env : Env :=
  ⟨32, fun k => (k + 0x55) % 256, 7, true, some 600, some 4, some 7, true⟩

/-- A loadable segment with a nonzero file offset and virtual address 0. -/
def seg_zero : Phdr := ⟨PT_LOAD, 6, 0x1000, 0, 0, 0x100, 0x100, 0x1000⟩

/-- A loadable segment with a nonzero file offset at virtual address 0x5000. -/
def seg_five : Phdr := ⟨PT_LOAD, 6, 0x2000, 0x5000, 0x5000, 0x100, 0x100, 0x1000⟩

/-- A load function for stub runs whose loaded value does not matter. -/
def no_load : Nat → Option Nat := fun _ => none

/-! ## What the claims speak about -/

/-- The name of a symbol table entry: the C string at `&strtab[st_name]`. -/
def sym_name (strtab : List Nat) (s : Sym) : List Nat := cstring (strtab.drop s.st_name)

/-- A loadable program header entry with a nonzero file offset. -/
def is_data (p : Phdr) : Prop := p.p_type = PT_LOAD ∧ p.p_offset ≠ 0

instance (p : Phdr) : Decidable (is_data p) := by unfold is_data; infer_instance

/-- The program header a note entry is turned into, written with plain numbers. -/
def stub_phdr (old_size stub_length : Nat) : Phdr :=
  { p_type := 1, p_flags := 5, p_offset := old_size,
    p_vaddr := 0xc000000 + old_size, p_paddr := 0xc000000 + old_size,
    p_filesz := stub_length + 1024, p_memsz := stub_length + 1024, p_align := 0x200000 }

/-! ## Symbol lookup -/

theorem strcmp_eq_iff (strtab name : List Nat) (s : Sym) :
    strcmp_eq strtab s.st_name name = true ↔ sym_name strtab s = cstring name := by
  simp [strcmp_eq, sym_name]

theorem symbol_loop_false_iff (strtab name : List Nat) (out : Sym) (l : List Sym) :
    (symbol_loop strtab name out l).1 = false ↔
      ∀ s ∈ l, sym_name strtab s ≠ cstring name := by
  induction l with
  | nil => simp [symbol_loop]
  | cons s rest ih =>
    by_cases h : strcmp_eq strtab s.st_name name = true
    · have h2 := (strcmp_eq_iff strtab name s).1 h
      simp [symbol_loop, h, h2]
    · have h2 : ¬ sym_name strtab s = cstring name := fun e => h ((strcmp_eq_iff _ _ _).2 e)
      simp only [Bool.not_eq_true] at h
      simp [symbol_loop, h, ih, h2]

theorem symbol_loop_false_out (strtab name : List Nat) (out : Sym) (l : List Sym) :
    (symbol_loop strtab name out l).1 = false → (symbol_loop strtab name out l).2 = out := by
  induction l with
  | nil => simp [symbol_loop]
  | cons s rest ih =>
    by_cases h : strcmp_eq strtab s.st_name name = true
    · simp [symbol_loop, h]
    · simp only [Bool.not_eq_true] at h
      simpa [symbol_loop, h] using ih

theorem symbol_loop_first (strtab name : List Nat) (out : Sym) (l : List Sym) :
    ∀ i (hi : i < l.length), sym_name strtab l[i] = cstring name →
      (∀ j (hj : j < i), sym_name strtab l[j] ≠ cstring name) →
      symbol_loop strtab name out l = (true, l[i]) := by
  induction l with
  | nil => intro i hi; simp at hi
  | cons s rest ih =>
    intro i hi hm hlt
    cases i with
    | zero =>
      have h : strcmp_eq strtab s.st_name name = true := (strcmp_eq_iff _ _ _).2 (by simpa using hm)
      simp [symbol_loop, h]
    | succ k =>
      have h0 := hlt 0 (Nat.succ_pos k)
      have h : strcmp_eq strtab s.st_name name = false := by
        cases hc : strcmp_eq strtab s.st_name name with
        | false => rfl
        | true => exact absurd ((strcmp_eq_iff _ _ _).1 hc) (by simpa using h0)
      have hk : k < rest.length := by simpa using hi
      have := ih k hk (by simpa using hm) (fun j hj => by
        have := hlt (j + 1) (Nat.succ_lt_succ hj)
        simpa using this)
      simpa [symbol_loop, h] using this

/-- C8: `_elf_symbol_by_name` returns true and copies out the entry with the lowest
index whose name equals the requested name, when there is one; it returns false
exactly when no entry has that name, and then leaves the output as it was. -/
theorem symbol_by_name_first_match (obj : elfobj2) (name : List Nat) (out : Sym) :
    (∀ i (hi : i < obj.symtab.length),
        sym_name obj.strtab obj.symtab[i] = cstring name →
        (∀ j (hj : j < i), sym_name obj.strtab obj.symtab[j] ≠ cstring name) →
        _elf_symbol_by_name obj name out = (true, obj.symtab[i])) ∧
    ((_elf_symbol_by_name obj name out).1 = false ↔
        ∀ s ∈ obj.symtab, sym_name obj.strtab s ≠ cstring name) ∧
    ((_elf_symbol_by_name obj name out).1 = false →
        (_elf_symbol_by_name obj name out).2 = out) :=
  ⟨symbol_loop_first obj.strtab name out obj.symtab,
   symbol_loop_false_iff obj.strtab name out obj.symtab,
   symbol_loop_false_out obj.strtab name out obj.symtab⟩


/-! ## Opening an image and rejecting dynamically linked ones -/

theorem open_loop_dynamic (l : List Phdr) (toff tbase : Nat) (dyn : Bool) :
    (open_loop l (toff, tbase, dyn)).2.2 = true ↔
      dyn = true ∨ ∃ p ∈ l, p.p_type = PT_DYNAMIC := by
  induction l generalizing toff tbase dyn with
  | nil => simp [open_loop]
  | cons p rest ih =>
    simp only [open_loop, ih]
    by_cases h : p.p_type = PT_DYNAMIC
    · simp [h]
    · simp [h]

/-- C6: `_elf_open_object` sets `dynamic_linked` exactly when some program header has
type `PT_DYNAMIC`, and on such an image `main` ends with exit status 1 leaving the
mapped buffer and both files as they were. -/
theorem dynamic_image_rejected (env : Env) (argc : Nat) (f : ElfFile)
    (tmp : Option ElfFile) :
    ∃ obj, _elf_open_object ⟨some f, tmp⟩ = some obj ∧
      obj.mem = f.bytes ++ List.replicate (slack f.bytes.length) 0 ∧
      obj.size = f.bytes.length ∧
      (obj.dynamic_linked = true ↔
        ∃ p ∈ phdr_table obj.mem (e_phoff obj.mem), p.p_type = PT_DYNAMIC) ∧
      (obj.dynamic_linked = true →
        (main env argc ⟨some f, tmp⟩).exit = Exit.status 1 ∧
        (main env argc ⟨some f, tmp⟩).world = ⟨some f, tmp⟩ ∧
        ((main env argc ⟨some f, tmp⟩).obj = none ∨
          (main env argc ⟨some f, tmp⟩).obj = some obj)) := by
  refine ⟨_, rfl, rfl, rfl, ?_, ?_⟩
  · simpa using open_loop_dynamic _ 0 0 false
  · intro hd
    by_cases ha : argc < 2
    · simp [main, ha]
    · have hd2 : (open_loop (phdr_table (f.bytes ++ List.replicate (slack f.bytes.length) 0)
          (e_phoff (f.bytes ++ List.replicate (slack f.bytes.length) 0)))
          (0, 0, false)).2.2 = true := hd
      simp [main, ha, _elf_open_object, hd2]

/-! ## The stub: which page is protected -/

theorem PAGE_ALIGN_eq (x : Nat) (hx : x < U64) : PAGE_ALIGN x = 4096 * (x / 4096) := by
  have e1 : (U64 - 1 - (PAGE_SIZE - 1) : Nat) = 2 ^ 12 * (2 ^ 52 - 1) := by
    norm_num [U64, PAGE_SIZE]
  have e2 : (4096 : Nat) = 2 ^ 12 := by norm_num
  have hx2 : x < 2 ^ 64 := hx
  unfold PAGE_ALIGN
  rw [e1, e2, ← Nat.shiftRight_eq_div_pow]
  apply Nat.eq_of_testBit_eq
  intro i
  rw [Nat.testBit_and, Nat.testBit_mul_pow_two, Nat.testBit_mul_pow_two,
    Nat.testBit_two_pow_sub_one, Nat.testBit_shiftRight]
  by_cases h : 12 ≤ i
  · have e3 : 12 + (i - 12) = i := by omega
    simp only [ge_iff_le, h, decide_True, Bool.true_and, e3]
    by_cases h2 : i < 64
    · have h4 : i - 12 < 52 := by omega
      simp [h4]
    · have h3 : x < 2 ^ i :=
        lt_of_lt_of_le hx2 (Nat.pow_le_pow_right (by norm_num) (by omega))
      simp [Nat.testBit_lt_two_pow h3]
  · simp [h]

theorem relro_loop_no_relro (l : List Phdr) (h : ∀ p ∈ l, p.p_type ≠ PT_GNU_RELRO)
    (rv : Nat) (fd : Bool) (sv : Nat) : (relro_loop l (rv, fd, sv)).1 = rv := by
  induction l generalizing fd sv with
  | nil => rfl
  | cons p rest ih =>
    have hp : p.p_type ≠ PT_GNU_RELRO := h p (List.mem_cons_self _ _)
    have hr : ∀ q ∈ rest, q.p_type ≠ PT_GNU_RELRO := fun q hq => h q (List.mem_cons_of_mem _ hq)
    simp only [relro_loop, hp, if_false]
    split
    · split
      · rfl
      · exact ih hr _ _
    · exact ih hr _ _

theorem data_loop_keeps (l : List Phdr) (dv sv : Nat) (h : dv ≠ 0) :
    (data_loop l (dv, sv)).1 = dv := by
  induction l generalizing sv with
  | nil => rfl
  | cons p rest ih =>
    simp only [data_loop, h, if_false]
    split
    · split
      · rfl
      · exact ih _
    · exact ih _

theorem data_loop_first (l : List Phdr) (sv : Nat) :
    (data_loop l (0, sv)).1 =
      match l.find? (fun p => decide (is_data p ∧ p.p_vaddr ≠ 0)) with
      | some d => d.p_vaddr
      | none => 0 := by
  induction l generalizing sv with
  | nil => rfl
  | cons p rest ih =>
    by_cases hd : p.p_type = PT_LOAD ∧ p.p_offset ≠ 0
    · by_cases hv : p.p_vaddr = 0
      · have hf : decide (is_data p ∧ p.p_vaddr ≠ 0) = false := by simp [hv]
        have e : data_loop (p :: rest) (0, sv) = data_loop rest (0, sv) := by
          simp [data_loop, hd.1, hd.2, hv]
        rw [e, List.find?, hf]
        exact ih sv
      · have hf : decide (is_data p ∧ p.p_vaddr ≠ 0) = true := by
          simp [is_data, hd.1, hd.2, hv]
        have e : data_loop (p :: rest) (0, sv) = data_loop rest (p.p_vaddr, sv) := by
          simp [data_loop, hd.1, hd.2]
        rw [e, List.find?, hf]
        exact data_loop_keeps rest _ _ hv
    · have hf : decide (is_data p ∧ p.p_vaddr ≠ 0) = false := by
        simp only [decide_eq_false_iff_not]
        exact fun hh => hd hh.1
      have e : data_loop (p :: rest) (0, sv) = data_loop rest (0, sv) := by
        simp only [data_loop, hd, if_false]
      rw [e, List.find?, hf]
      exact ih sv

/-- C7 (amended): on a table without a GNU relro entry the stub, when some loadable
entry has a nonzero file offset and a nonzero virtual address, does not trap and
issues exactly one `mprotect`, of 4096 bytes, read-only, at the virtual address of
the first such entry rounded down to a multiple of 4096; when no loadable entry has a
nonzero file offset it traps and protects nothing. -/
theorem fallback_protects_data_page (phdr : List Phdr) (ld : Nat → Option Nat)
    (hrelro : ∀ p ∈ phdr, p.p_type ≠ PT_GNU_RELRO) :
    ((∃ p ∈ phdr, is_data p ∧ p.p_vaddr ≠ 0) →
      ∃ d, phdr.find? (fun p => decide (is_data p ∧ p.p_vaddr ≠ 0)) = some d ∧
        (enable_relro phdr ld).trap = false ∧
        (enable_relro phdr ld).mprotect = [(PAGE_ALIGN d.p_vaddr, 4096, PROT_READ)] ∧
        (d.p_vaddr < U64 → PAGE_ALIGN d.p_vaddr = 4096 * (d.p_vaddr / 4096))) ∧
    ((∀ p ∈ phdr, ¬ is_data p) →
      (enable_relro phdr ld).trap = true ∧ (enable_relro phdr ld).mprotect = []) := by
  have h1 : (relro_loop phdr (0, false, 0)).1 = 0 := relro_loop_no_relro phdr hrelro 0 false 0
  constructor
  · rintro ⟨p, hp, hpd⟩
    cases hf : phdr.find? (fun p => decide (is_data p ∧ p.p_vaddr ≠ 0)) with
    | none =>
      rw [List.find?_eq_none] at hf
      exact absurd (by simpa using hpd) (hf p hp)
    | some d =>
      have hd := List.find?_some hf
      simp only [decide_eq_true_eq] at hd
      have h2 := data_loop_first phdr (relro_loop phdr (0, false, 0)).2.2
      rw [hf] at h2
      refine ⟨d, rfl, ?_, ?_, PAGE_ALIGN_eq d.p_vaddr⟩
      · simp [enable_relro, h1, h2, hd.2]
      · simp [enable_relro, h1, h2, hd.2, PAGE_ALIGN, PAGE_SIZE]
  · intro hnone
    have hf : phdr.find? (fun p => decide (is_data p ∧ p.p_vaddr ≠ 0)) = none := by
      rw [List.find?_eq_none]
      intro p hp
      simpa using fun hh => absurd hh (hnone p hp)
    have h2 := data_loop_first phdr (relro_loop phdr (0, false, 0)).2.2
    rw [hf] at h2
    simp [enable_relro, h1, h2]

/-- Witness for C7 (amended): text then data, no relro entry; the data page at
0x600000 is protected. -/
theorem fallback_protects_data_page_witness :
    (enable_relro [seg_text, seg_data] no_load).trap = false ∧
    (enable_relro [seg_text, seg_data] no_load).mprotect =
      [(PAGE_ALIGN 0x600100, 4096, PROT_READ)] := by
  obtain ⟨d, hd, h1, h2, _⟩ :=
    (fallback_protects_data_page [seg_text, seg_data] no_load (by decide)).1
      ⟨seg_data, by decide, by decide⟩
  have hd2 : d = seg_data := by
    have : [seg_text, seg_data].find? (fun p => decide (is_data p ∧ p.p_vaddr ≠ 0))
        = some seg_data := by decide
    rw [this] at hd
    exact (Option.some.inj hd).symm
  subst hd2
  exact ⟨h1, h2⟩

/-- C7 as stated fails: the first loadable entry with a nonzero file offset has
virtual address 0, a later one has 0x5000; the stub protects the page at 0x5000, not
the page of the first such entry. -/
theorem fallback_first_entry_counterexample :
    (∀ p ∈ [seg_zero, seg_five], p.p_type ≠ PT_GNU_RELRO) ∧
    (∃ p ∈ [seg_zero, seg_five], is_data p ∧ p.p_vaddr ≠ 0) ∧
    [seg_zero, seg_five].find? (fun p => decide (is_data p)) = some seg_zero ∧
    (enable_relro [seg_zero, seg_five] no_load).mprotect = [(0x5000, 4096, PROT_READ)] ∧
    (enable_relro [seg_zero, seg_five] no_load).mprotect ≠
      [(4096 * (seg_zero.p_vaddr / 4096), 4096, PROT_READ)] := by
  decide

/-- C1: a table with a GNU relro entry at 0x602000 placed after the third loadable
entry; the first loop leaves at that entry, never reads the relro entry, and the stub
protects the data page at 0x600000 on the fallback path.  The same happens on the
table the injector itself writes for the layout text, data, note, relro, which is the
table the stub finds at the load base of the injected file. -/
theorem relro_after_stub_is_missed :
    (∃ p ∈ table_relro_last, p.p_type = PT_GNU_RELRO ∧ p.p_vaddr = 0x602000) ∧
    (relro_loop table_relro_last (0, false, 0)).1 = 0 ∧
    (enable_relro table_relro_last no_load).mprotect = [(0x600000, 4096, PROT_READ)] ∧
    PAGE_ALIGN 0x602000 = 0x602000 ∧
    (main demo_env 2 (demo_world table_one_note)).exit = Exit.status 0 ∧
    ((main demo_env 2 (demo_world table_one_note)).world.target.map file_table) =
      some table_relro_last ∧
    ((main demo_env 2 (demo_world table_one_note)).world.target.map process_table) =
      some (some table_relro_last) ∧
    ((main demo_env 2 (demo_world table_one_note)).world.target.map
      (fun f => (run_stub f 0xc00025c 0xc00027c).mprotect)) =
        some [(0x600000, 4096, PROT_READ)] := by
  decide!


/-! ## Loads and stores -/

theorem le_bytes_length (n v : Nat) : (le_bytes n v).length = n := by
  induction n generalizing v with
  | zero => rfl
  | succ k ih => simp [le_bytes, ih]

theorem le_value_le_bytes (n v : Nat) : le_value (le_bytes n v) = v % 256 ^ n := by
  induction n generalizing v with
  | zero => simp [le_bytes, le_value, Nat.mod_one]
  | succ k ih =>
    simp only [le_bytes, le_value, ih]
    rw [pow_succ, Nat.mul_comm (256 ^ k) 256, Nat.mod_mul]

theorem le_bytes_lt (n v j : Nat) : (le_bytes n v).getD j 0 < 256 := by
  induction n generalizing v j with
  | zero => simp [le_bytes]
  | succ k ih =>
    cases j with
    | zero => simp [le_bytes]; omega
    | succ i => simpa [le_bytes] using ih (v / 256) i

theorem mapped_iff (mem : List Nat) (k : Nat) : mapped mem k = true ↔ k < mem.length := by
  simp [mapped, List.isEmpty_iff, List.drop_eq_nil_iff]

theorem store_bytes_length (bs : List Nat) (mem : List Nat) (off : Nat) :
    (store_bytes mem off bs).length = mem.length := by
  induction mem generalizing off bs with
  | nil => simp [store_bytes]
  | cons m ms ih =>
    cases off with
    | zero =>
      cases bs with
      | nil => simp [store_bytes]
      | cons b rest => simp [store_bytes, ih]
    | succ o => simp [store_bytes, ih]

theorem getD_set_ne (mem : List Nat) (i k b : Nat) (h : i ≠ k) :
    (mem.set i b).getD k 0 = mem.getD k 0 := by
  simp [List.getD_eq_getElem?_getD, List.getElem?_set, h]

theorem store_bytes_getD_out (bs : List Nat) (mem : List Nat) (off k : Nat)
    (h : k < off ∨ off + bs.length ≤ k) :
    (store_bytes mem off bs).getD k 0 = mem.getD k 0 := by
  induction mem generalizing off bs k with
  | nil => simp [store_bytes]
  | cons m ms ih =>
    cases off with
    | zero =>
      cases bs with
      | nil => simp [store_bytes]
      | cons b rest =>
        simp only [List.length_cons] at h
        cases k with
        | zero => omega
        | succ j =>
          simp only [store_bytes, List.getD_cons_succ]
          exact ih rest 0 j (by omega)
    | succ o =>
      cases k with
      | zero => simp [store_bytes]
      | succ j =>
        simp only [store_bytes, List.getD_cons_succ]
        exact ih bs o j (by omega)

theorem store_bytes_getD_in (bs : List Nat) (mem : List Nat) (off j : Nat)
    (hlen : off + bs.length ≤ mem.length) (hj : j < bs.length) :
    (store_bytes mem off bs).getD (off + j) 0 = bs.getD j 0 := by
  induction mem generalizing off bs j with
  | nil =>
    simp only [List.length_nil] at hlen
    omega
  | cons m ms ih =>
    simp only [List.length_cons] at hlen
    cases off with
    | zero =>
      cases bs with
      | nil => simp at hj
      | cons b rest =>
        simp only [List.length_cons] at hlen hj
        cases j with
        | zero => simp [store_bytes]
        | succ i =>
          simp only [store_bytes, Nat.zero_add, List.getD_cons_succ]
          have := ih rest 0 i (by omega) (by omega)
          simpa using this
    | succ o =>
      have e : o + 1 + j = (o + j) + 1 := by omega
      simp only [store_bytes, e, List.getD_cons_succ]
      exact ih bs o j (by omega) hj

theorem store_le_length (mem : List Nat) (off n v : Nat) :
    (store_le mem off n v).length = mem.length := by
  simp [store_le, store_bytes_length]

theorem store_le_getD_out (mem : List Nat) (off n v k : Nat) (h : k < off ∨ off + n ≤ k) :
    (store_le mem off n v).getD k 0 = mem.getD k 0 :=
  store_bytes_getD_out _ mem off k (by rw [le_bytes_length]; exact h)

theorem load_le_eq (mem : List Nat) (off n : Nat) :
    load_le mem off n = le_value ((List.range n).map (fun k => byte_at mem (off + k))) := by
  unfold load_le
  induction n generalizing off with
  | zero => simp [le_value]
  | succ k ih =>
    rw [List.range_succ_eq_map]
    simp only [List.map_cons, List.map_map, le_value, Nat.add_zero]
    have e : (List.range k).map ((fun k => byte_at mem (off + k)) ∘ Nat.succ) =
        (List.range k).map (fun k => byte_at mem (off + 1 + k)) := by
      apply List.map_congr_left
      intro a _
      simp only [Function.comp, Nat.succ_eq_add_one]
      congr 1
      omega
    rw [e, ← ih (off + 1)]
    by_cases h : off < mem.length
    · rw [List.drop_eq_getElem_cons h]
      simp only [List.take_succ_cons, List.map_cons, le_value, byte_at]
      rw [List.getD_eq_getElem _ _ h]
    · have h1 : mem.drop off = [] := List.drop_eq_nil_of_le (by omega)
      have h2 : mem.drop (off + 1) = [] := List.drop_eq_nil_of_le (by omega)
      have h3 : mem.getD off 0 = 0 := by
        rw [List.getD_eq_default]; omega
      simp only [h1, h2, le_value, byte_at, h3, List.take_nil, List.map_nil]
theorem load_le_congr (m1 m2 : List Nat) (off n : Nat)
    (h : ∀ k, off ≤ k → k < off + n → m1.getD k 0 = m2.getD k 0) :
    load_le m1 off n = load_le m2 off n := by
  rw [load_le_eq, load_le_eq]
  congr 1
  apply List.map_congr_left
  intro k hk
  have hk2 : k < n := List.mem_range.1 hk
  simp only [byte_at]
  rw [h (off + k) (by omega) (by omega)]

theorem load_store_other (mem : List Nat) (o n v o2 n2 : Nat)
    (h : o2 + n2 ≤ o ∨ o + n ≤ o2) :
    load_le (store_le mem o n v) o2 n2 = load_le mem o2 n2 :=
  load_le_congr _ _ _ _ (fun k h1 h2 => store_le_getD_out mem o n v k (by omega))

theorem load_store_same (mem : List Nat) (o n v : Nat) (h : o + n ≤ mem.length) :
    load_le (store_le mem o n v) o n = v % 256 ^ n := by
  have e : (List.range n).map (fun k => byte_at (store_le mem o n v) (o + k)) =
      le_bytes n v := by
    apply List.ext_getElem
    · simp [le_bytes_length]
    · intro i h1 h2
      simp only [List.getElem_map, List.getElem_range, byte_at, store_le]
      rw [store_bytes_getD_in _ mem o i (by rw [le_bytes_length]; exact h)
        (by rw [le_bytes_length]; simpa using h1)]
      rw [Nat.mod_eq_of_lt (le_bytes_lt n v i)]
      simp [List.getD_eq_getElem?_getD, List.getElem?_eq_getElem h2]
  rw [load_le_eq, e, le_value_le_bytes]

theorem load_le_lt (mem : List Nat) (off n : Nat) : load_le mem off n < 256 ^ n := by
  rw [load_le_eq]
  induction n generalizing off with
  | zero => simp [le_value]
  | succ k ih =>
    rw [List.range_succ_eq_map]
    simp only [List.map_cons, List.map_map, le_value, Nat.add_zero]
    have h1 : byte_at mem off < 256 := Nat.mod_lt _ (by norm_num)
    have h2 := ih (off + 1)
    have e : (List.range k).map ((fun k => byte_at mem (off + k)) ∘ Nat.succ) =
        (List.range k).map (fun k => byte_at mem (off + 1 + k)) := by
      apply List.map_congr_left
      intro a _
      simp only [Function.comp, Nat.succ_eq_add_one]
      congr 1
      omega
    rw [e, pow_succ]
    omega

theorem rewrite_note_length (mem : List Nat) (b s z : Nat) :
    (rewrite_note mem b s z).length = mem.length := by
  simp [rewrite_note, store_le_length]

theorem rewrite_note_getD_out (mem : List Nat) (b s z k : Nat) (h : k < b ∨ b + 56 ≤ k) :
    (rewrite_note mem b s z).getD k 0 = mem.getD k 0 := by
  simp only [rewrite_note]
  rw [store_le_getD_out _ _ _ _ _ (by omega), store_le_getD_out _ _ _ _ _ (by omega),
    store_le_getD_out _ _ _ _ _ (by omega), store_le_getD_out _ _ _ _ _ (by omega),
    store_le_getD_out _ _ _ _ _ (by omega), store_le_getD_out _ _ _ _ _ (by omega),
    store_le_getD_out _ _ _ _ _ (by omega), store_le_getD_out _ _ _ _ _ (by omega)]

theorem read_phdr_congr (m1 m2 : List Nat) (b : Nat)
    (h : ∀ k, b ≤ k → k < b + 56 → m1.getD k 0 = m2.getD k 0) :
    read_phdr m1 b = read_phdr m2 b := by
  simp only [read_phdr]
  rw [load_le_congr m1 m2 b 4 (fun k h1 h2 => h k (by omega) (by omega)),
    load_le_congr m1 m2 (b + 4) 4 (fun k h1 h2 => h k (by omega) (by omega)),
    load_le_congr m1 m2 (b + 8) 8 (fun k h1 h2 => h k (by omega) (by omega)),
    load_le_congr m1 m2 (b + 16) 8 (fun k h1 h2 => h k (by omega) (by omega)),
    load_le_congr m1 m2 (b + 24) 8 (fun k h1 h2 => h k (by omega) (by omega)),
    load_le_congr m1 m2 (b + 32) 8 (fun k h1 h2 => h k (by omega) (by omega)),
    load_le_congr m1 m2 (b + 40) 8 (fun k h1 h2 => h k (by omega) (by omega)),
    load_le_congr m1 m2 (b + 48) 8 (fun k h1 h2 => h k (by omega) (by omega))]

theorem read_rewrite_note (mem : List Nat) (b s z : Nat) (hb : b + 56 ≤ mem.length)
    (hs : s + 0xc000000 < U64) (hz : z + 1024 < U64) :
    read_phdr (rewrite_note mem b s z) b = stub_phdr s z := by
  have hs2 : s + 0xc000000 < 18446744073709551616 := hs
  have hz2 : z + 1024 < 18446744073709551616 := hz
  have e32 : (256 : Nat) ^ 4 = 4294967296 := by norm_num
  have e64 : (256 : Nat) ^ 8 = 18446744073709551616 := by norm_num
  obtain ⟨m1, e1⟩ : ∃ m, m = store_le mem b 4 PT_LOAD := ⟨_, rfl⟩
  have l1 : b + 56 ≤ m1.length := by rw [e1, store_le_length]; exact hb
  obtain ⟨m2, e2⟩ : ∃ m, m = store_le m1 (b + 16) 8 (0xc000000 + s) := ⟨_, rfl⟩
  have l2 : b + 56 ≤ m2.length := by rw [e2, store_le_length]; exact l1
  obtain ⟨m3, e3⟩ : ∃ m, m = store_le m2 (b + 32) 8 (z + PADDING_SIZE) := ⟨_, rfl⟩
  have l3 : b + 56 ≤ m3.length := by rw [e3, store_le_length]; exact l2
  obtain ⟨m4, e4⟩ : ∃ m, m = store_le m3 (b + 40) 8 (load_le m3 (b + 32) 8) := ⟨_, rfl⟩
  have l4 : b + 56 ≤ m4.length := by rw [e4, store_le_length]; exact l3
  obtain ⟨m5, e5⟩ : ∃ m, m = store_le m4 (b + 4) 4 (PF_R ||| PF_X) := ⟨_, rfl⟩
  have l5 : b + 56 ≤ m5.length := by rw [e5, store_le_length]; exact l4
  obtain ⟨m6, e6⟩ : ∃ m, m = store_le m5 (b + 48) 8 0x200000 := ⟨_, rfl⟩
  have l6 : b + 56 ≤ m6.length := by rw [e6, store_le_length]; exact l5
  obtain ⟨m7, e7⟩ : ∃ m, m = store_le m6 (b + 24) 8 (load_le m6 (b + 16) 8) := ⟨_, rfl⟩
  have l7 : b + 56 ≤ m7.length := by rw [e7, store_le_length]; exact l6
  obtain ⟨m8, e8⟩ : ∃ m, m = store_le m7 (b + 8) 8 s := ⟨_, rfl⟩
  have l8 : b + 56 ≤ m8.length := by rw [e8, store_le_length]; exact l7
  have v3 : load_le m3 (b + 32) 8 = z + 1024 := by
    rw [e3, load_store_same _ _ _ _ (by have := l2; omega), e64]
    exact Nat.mod_eq_of_lt (by simp only [PADDING_SIZE]; omega)
  have v6 : load_le m6 (b + 16) 8 = 0xc000000 + s := by
    rw [e6, load_store_other _ _ _ _ _ _ (by omega),
      e5, load_store_other _ _ _ _ _ _ (by omega),
      e4, load_store_other _ _ _ _ _ _ (by omega),
      e3, load_store_other _ _ _ _ _ _ (by omega),
      e2, load_store_same _ _ _ _ (by have := l1; omega), e64]
    exact Nat.mod_eq_of_lt (by omega)
  have f1 : load_le m8 b 4 = 1 := by
    rw [e8, load_store_other _ _ _ _ _ _ (by omega),
      e7, load_store_other _ _ _ _ _ _ (by omega),
      e6, load_store_other _ _ _ _ _ _ (by omega),
      e5, load_store_other _ _ _ _ _ _ (by omega),
      e4, load_store_other _ _ _ _ _ _ (by omega),
      e3, load_store_other _ _ _ _ _ _ (by omega),
      e2, load_store_other _ _ _ _ _ _ (by omega),
      e1, load_store_same _ _ _ _ (by have := hb; omega)]
    rfl
  have f2 : load_le m8 (b + 16) 8 = 0xc000000 + s := by
    rw [e8, load_store_other _ _ _ _ _ _ (by omega),
      e7, load_store_other _ _ _ _ _ _ (by omega),
      e6, load_store_other _ _ _ _ _ _ (by omega),
      e5, load_store_other _ _ _ _ _ _ (by omega),
      e4, load_store_other _ _ _ _ _ _ (by omega),
      e3, load_store_other _ _ _ _ _ _ (by omega),
      e2, load_store_same _ _ _ _ (by have := l1; omega), e64]
    exact Nat.mod_eq_of_lt (by omega)
  have f3 : load_le m8 (b + 32) 8 = z + 1024 := by
    rw [e8, load_store_other _ _ _ _ _ _ (by omega),
      e7, load_store_other _ _ _ _ _ _ (by omega),
      e6, load_store_other _ _ _ _ _ _ (by omega),
      e5, load_store_other _ _ _ _ _ _ (by omega),
      e4, load_store_other _ _ _ _ _ _ (by omega),
      e3, load_store_same _ _ _ _ (by have := l2; omega), e64]
    exact Nat.mod_eq_of_lt (by simp only [PADDING_SIZE]; omega)
  have f4 : load_le m8 (b + 40) 8 = z + 1024 := by
    rw [e8, load_store_other _ _ _ _ _ _ (by omega),
      e7, load_store_other _ _ _ _ _ _ (by omega),
      e6, load_store_other _ _ _ _ _ _ (by omega),
      e5, load_store_other _ _ _ _ _ _ (by omega),
      e4, load_store_same _ _ _ _ (by have := l3; omega), e64, v3]
    exact Nat.mod_eq_of_lt (by omega)
  have f5 : load_le m8 (b + 4) 4 = 5 := by
    rw [e8, load_store_other _ _ _ _ _ _ (by omega),
      e7, load_store_other _ _ _ _ _ _ (by omega),
      e6, load_store_other _ _ _ _ _ _ (by omega),
      e5, load_store_same _ _ _ _ (by have := l4; omega)]
    rfl
  have f6 : load_le m8 (b + 48) 8 = 0x200000 := by
    rw [e8, load_store_other _ _ _ _ _ _ (by omega),
      e7, load_store_other _ _ _ _ _ _ (by omega),
      e6, load_store_same _ _ _ _ (by have := l5; omega)]
    rfl
  have f7 : load_le m8 (b + 24) 8 = 0xc000000 + s := by
    rw [e8, load_store_other _ _ _ _ _ _ (by omega),
      e7, load_store_same _ _ _ _ (by have := l6; omega), e64, v6]
    exact Nat.mod_eq_of_lt (by omega)
  have f8 : load_le m8 (b + 8) 8 = s := by
    rw [e8, load_store_same _ _ _ _ (by have := l7; omega), e64]
    exact Nat.mod_eq_of_lt (by omega)
  have hr : rewrite_note mem b s z = m8 := by
    rw [e8, e7, e6, e5, e4, e3, e2, e1]
    rfl
  rw [hr]
  simp only [read_phdr, stub_phdr, f1, f2, f3, f4, f5, f6, f7, f8]

theorem note_loop_spec (phoff s z N : Nat) (hs : s + 0xc000000 < U64)
    (hz : z + 1024 < U64) (hph : 58 ≤ phoff) :
    ∀ (fuel i : Nat) (m : List Nat) (inj : Option Nat),
      e_phnum m = N → phoff + 56 * N ≤ m.length → N < fuel + i →
      ∃ m2 inj2, note_loop phoff s z fuel i m inj = some (m2, inj2) ∧
        m2.length = m.length ∧
        (∀ k, k < phoff + 56 * i ∨ phoff + 56 * N ≤ k → m2.getD k 0 = m.getD k 0) ∧
        (∀ j, i ≤ j → j < N → read_phdr m2 (phoff + 56 * j) =
          if (read_phdr m (phoff + 56 * j)).p_type = PT_NOTE then stub_phdr s z
          else read_phdr m (phoff + 56 * j)) ∧
        ((∃ j, i ≤ j ∧ j < N ∧ (read_phdr m (phoff + 56 * j)).p_type = PT_NOTE) →
          inj2 = some z) ∧
        ((¬ ∃ j, i ≤ j ∧ j < N ∧ (read_phdr m (phoff + 56 * j)).p_type = PT_NOTE) →
          inj2 = inj) := by
  intro fuel
  induction fuel with
  | zero =>
    intro i m inj hN hlen hfuel
    refine ⟨m, inj, rfl, rfl, fun _ _ => rfl, fun j h1 h2 => by omega, ?_, fun _ => rfl⟩
    rintro ⟨j, h1, h2, _⟩
    omega
  | succ fuel ih =>
    intro i m inj hN hlen hfuel
    by_cases hi : i < N
    · have hin : i < e_phnum m := by rw [hN]; exact hi
      have hb : phoff + 56 * i + 56 ≤ m.length := by omega
      have h4 : ¬ mapped m (phoff + 56 * i + 3) = false := by
        rw [Bool.not_eq_false, mapped_iff]; omega
      have h56 : ¬ mapped m (phoff + 56 * i + 55) = false := by
        rw [Bool.not_eq_false, mapped_iff]; omega
      have hty : load_le m (phoff + 56 * i) 4 = (read_phdr m (phoff + 56 * i)).p_type := rfl
      by_cases hnote : (read_phdr m (phoff + 56 * i)).p_type = PT_NOTE
      · have hstep : note_loop phoff s z (fuel + 1) i m inj =
            note_loop phoff s z fuel (i + 1) (rewrite_note m (phoff + 56 * i) s z)
              (some z) := by
          rw [note_loop, if_pos hin, if_neg h4, hty, if_neg (not_not.2 hnote), if_neg h56]
        have hout : ∀ k, k < phoff + 56 * i ∨ phoff + 56 * i + 56 ≤ k →
            (rewrite_note m (phoff + 56 * i) s z).getD k 0 = m.getD k 0 :=
          fun k hk => rewrite_note_getD_out m _ s z k hk
        have hN1 : e_phnum (rewrite_note m (phoff + 56 * i) s z) = N := by
          rw [← hN]
          exact load_le_congr _ _ _ _ (fun k h1 h2 => hout k (by omega))
        obtain ⟨m2, inj2, hrun, hl, hfr, hent, hinj1, hinj2⟩ :=
          ih (i + 1) (rewrite_note m (phoff + 56 * i) s z) (some z) hN1
            (by rw [rewrite_note_length]; exact hlen) (by omega)
        have hz2 : inj2 = some z := by
          by_cases hex : ∃ j, i + 1 ≤ j ∧ j < N ∧
              (read_phdr (rewrite_note m (phoff + 56 * i) s z) (phoff + 56 * j)).p_type =
                PT_NOTE
          · exact hinj1 hex
          · exact hinj2 hex
        refine ⟨m2, inj2, by rw [hstep, hrun], by rw [hl, rewrite_note_length], ?_, ?_,
          fun _ => hz2, fun hne => absurd ⟨i, le_refl i, hi, hnote⟩ hne⟩
        · intro k hk
          rw [hfr k (by omega), hout k (by omega)]
        · intro j h1 h2
          by_cases hj : j = i
          · subst hj
            rw [if_pos hnote]
            rw [read_phdr_congr m2 (rewrite_note m (phoff + 56 * j) s z) (phoff + 56 * j)
              (fun k h1 h2 => hfr k (by omega))]
            exact read_rewrite_note m _ s z hb hs hz
          · have e : read_phdr (rewrite_note m (phoff + 56 * i) s z) (phoff + 56 * j) =
                read_phdr m (phoff + 56 * j) :=
              read_phdr_congr _ _ _ (fun k h1 h2 => hout k (by omega))
            rw [hent j (by omega) h2, e]
      · have hstep : note_loop phoff s z (fuel + 1) i m inj =
            note_loop phoff s z fuel (i + 1) m inj := by
          rw [note_loop, if_pos hin, if_neg h4, hty, if_pos hnote]
        obtain ⟨m2, inj2, hrun, hl, hfr, hent, hinj1, hinj2⟩ :=
          ih (i + 1) m inj hN hlen (by omega)
        have hiff : (∃ j, i + 1 ≤ j ∧ j < N ∧
            (read_phdr m (phoff + 56 * j)).p_type = PT_NOTE) ↔
            (∃ j, i ≤ j ∧ j < N ∧ (read_phdr m (phoff + 56 * j)).p_type = PT_NOTE) := by
          constructor
          · rintro ⟨j, h1, h2, h3⟩
            exact ⟨j, by omega, h2, h3⟩
          · rintro ⟨j, h1, h2, h3⟩
            have : j ≠ i := fun e => hnote (e ▸ h3)
            exact ⟨j, by omega, h2, h3⟩
        refine ⟨m2, inj2, by rw [hstep, hrun], hl, fun k hk => hfr k (by omega), ?_,
          fun hex => hinj1 (hiff.2 hex), fun hne => hinj2 (fun hex => hne (hiff.1 hex))⟩
        · intro j h1 h2
          by_cases hj : j = i
          · subst hj
            rw [if_neg hnote]
            exact read_phdr_congr _ _ _ (fun k h1 h2 => hfr k (by omega))
          · exact hent j (by omega) h2
    · have hin : ¬ i < e_phnum m := by rw [hN]; exact hi
      refine ⟨m, inj, by rw [note_loop, if_neg hin], rfl, fun _ _ => rfl,
        fun j h1 h2 => by omega, ?_, fun _ => rfl⟩
      rintro ⟨j, h1, h2, _⟩
      omega

theorem e_phnum_lt (m : List Nat) : e_phnum m < 65536 := by
  have := load_le_lt m 56 2
  simpa [e_phnum] using this

theorem write_trampoline_length (mem : List Nat) (off s : Nat) :
    (write_trampoline mem off s).length = mem.length := by
  simp [write_trampoline, store_bytes_length]

theorem write_trampoline_getD_out (mem : List Nat) (off s k : Nat)
    (h : k < off + 580 ∨ off + 586 ≤ k) :
    (write_trampoline mem off s).getD k 0 = mem.getD k 0 := by
  simp only [write_trampoline, TRAMPOLINE_OFFSET, GENERIC_START_MAIN_PATCH_OFFSET]
  rw [getD_set_ne _ _ _ _ (by omega),
    store_bytes_getD_out _ _ _ _ (by rw [le_bytes_length]; omega),
    getD_set_ne _ _ _ _ (by omega)]

/-- The iteration bound of `note_loop` is not reached: one more iteration allowed
changes nothing once `fuel + i` is at least 65536. -/
theorem note_loop_fuel (phoff s z : Nat) :
    ∀ (fuel i : Nat) (m : List Nat) (inj : Option Nat), 65536 ≤ fuel + i →
      note_loop phoff s z (fuel + 1) i m inj = note_loop phoff s z fuel i m inj := by
  intro fuel
  induction fuel with
  | zero =>
    intro i m inj h
    have := e_phnum_lt m
    simp only [note_loop]
    rw [if_neg (by omega)]
  | succ fuel ih =>
    intro i m inj h
    conv_lhs => rw [note_loop]
    conv_rhs => rw [note_loop]
    rw [ih (i + 1) m inj (by omega), ih (i + 1) _ (some z) (by omega)]

theorem inject_ret_true (env : Env) (obj : elfobj2) (w : World)
    (h : (inject_relro_code env obj w).outcome = Outcome.ret true) :
    ∃ off mem2 inj,
      _elf_text_pointer obj
        (_elf_symbol_by_name obj name_generic_start_main default).2.st_value = some off ∧
      off + 585 < obj.mem.length ∧
      note_loop obj.phdr obj.size env.relro_stub_size 65536 0
        (write_trampoline obj.mem off obj.size) none = some (mem2, inj) ∧
      (inject_relro_code env obj w).obj = { obj with mem := mem2 } := by
  by_cases h1 : (_elf_symbol_by_name obj name_generic_start_main default).1 = false
  · simp [inject_relro_code, h1] at h
  by_cases h2 : (_elf_symbol_by_name obj name_main default).1 = false
  · simp [inject_relro_code, h1, h2] at h
  cases h3 : _elf_text_pointer obj
      (_elf_symbol_by_name obj name_generic_start_main default).2.st_value with
  | none => simp [inject_relro_code, h1, h2, h3] at h
  | some off =>
    cases hb : mapped obj.mem (off + TRAMPOLINE_OFFSET + 5) with
    | false => simp [inject_relro_code, h1, h2, h3, hb] at h
    | true =>
      cases h4 : note_loop obj.phdr obj.size env.relro_stub_size 65536 0
          (write_trampoline obj.mem off obj.size) none with
      | none => simp [inject_relro_code, h1, h2, h3, hb, h4] at h
      | some r =>
        obtain ⟨mem2, inj⟩ := r
        refine ⟨off, mem2, inj, rfl, ?_, h4, ?_⟩
        · simpa [TRAMPOLINE_OFFSET, GENERIC_START_MAIN_PATCH_OFFSET] using
            (mapped_iff _ _).1 hb
        · have h1t : (_elf_symbol_by_name obj name_generic_start_main default).1 = true := by
            simpa using h1
          have h2t : (_elf_symbol_by_name obj name_main default).1 = true := by
            simpa using h2
          simp only [inject_relro_code, h1t, h2t, h3, hb, h4, if_false, not_true_eq_false]
          split_ifs <;> first | rfl | contradiction

/-- C4 (amended): when `inject_relro_code` succeeds on an image whose program header
table lies inside the mapped buffer, behind the header field `e_phnum`, apart from the
six trampoline bytes, and holds at least one note entry, then `e_phnum` and the table
pointer are as before, at least one entry has changed, every entry that had type
`PT_NOTE` is the loadable entry with virtual and physical address
`0xc000000 + old_size`, file offset `old_size`, file and memory size
`relro_stub_size + 1024`, flags 5 (read|execute) and alignment 0x200000, and every
other entry is unchanged; so the entries that differ are exactly the former note
entries. -/
theorem note_entries_rewritten (env : Env) (obj : elfobj2) (w : World) (off : Nat)
    (hs : obj.size + 0xc000000 < U64) (hz : env.relro_stub_size + 1024 < U64)
    (h : (inject_relro_code env obj w).outcome = Outcome.ret true)
    (hoff : _elf_text_pointer obj
      (_elf_symbol_by_name obj name_generic_start_main default).2.st_value = some off)
    (hph : 58 ≤ obj.phdr) (hin : obj.phdr + 56 * e_phnum obj.mem ≤ obj.mem.length)
    (hapart : off + 586 ≤ obj.phdr ∨ obj.phdr + 56 * e_phnum obj.mem ≤ off + 580)
    (hnote : ∃ p ∈ phdr_table obj.mem obj.phdr, p.p_type = PT_NOTE) :
    e_phnum (inject_relro_code env obj w).obj.mem = e_phnum obj.mem ∧
    (inject_relro_code env obj w).obj.phdr = obj.phdr ∧
    phdr_table (inject_relro_code env obj w).obj.mem obj.phdr =
      (phdr_table obj.mem obj.phdr).map (fun p =>
        if p.p_type = PT_NOTE then stub_phdr obj.size env.relro_stub_size else p) ∧
    (∃ i : Nat, (phdr_table (inject_relro_code env obj w).obj.mem obj.phdr)[i]? ≠
      (phdr_table obj.mem obj.phdr)[i]?) ∧
    (∀ (i : Nat) (p : Phdr), (phdr_table obj.mem obj.phdr)[i]? = some p →
      (p.p_type = PT_NOTE →
        (phdr_table (inject_relro_code env obj w).obj.mem obj.phdr)[i]? =
          some (stub_phdr obj.size env.relro_stub_size)) ∧
      (p.p_type ≠ PT_NOTE →
        (phdr_table (inject_relro_code env obj w).obj.mem obj.phdr)[i]? = some p) ∧
      ((phdr_table (inject_relro_code env obj w).obj.mem obj.phdr)[i]? ≠ some p ↔
        p.p_type = PT_NOTE)) := by
  obtain ⟨off2, mem2, inj, h3, hb, hloop, hobj⟩ := inject_ret_true env obj w h
  have hoo : off2 = off := Option.some.inj (h3.symm.trans hoff)
  subst hoo
  have htr : ∀ k, k < off2 + 580 ∨ off2 + 586 ≤ k →
      (write_trampoline obj.mem off2 obj.size).getD k 0 = obj.mem.getD k 0 :=
    fun k hk => write_trampoline_getD_out obj.mem off2 obj.size k hk
  have hN1 : e_phnum (write_trampoline obj.mem off2 obj.size) = e_phnum obj.mem :=
    load_le_congr _ _ _ _ (fun k h1 h2 => htr k (by omega))
  have hent1 : ∀ j, j < e_phnum obj.mem →
      read_phdr (write_trampoline obj.mem off2 obj.size) (obj.phdr + 56 * j) =
        read_phdr obj.mem (obj.phdr + 56 * j) :=
    fun j hj => read_phdr_congr _ _ _ (fun k h1 h2 => htr k (by omega))
  obtain ⟨m2, inj2, hrun, hl, hfr, hent, _, _⟩ :=
    note_loop_spec obj.phdr obj.size env.relro_stub_size (e_phnum obj.mem) hs hz hph
      65536 0 (write_trampoline obj.mem off2 obj.size) none hN1
      (by rw [write_trampoline_length]; exact hin)
      (by have := e_phnum_lt obj.mem; omega)
  have hm : mem2 = m2 := by
    have := hloop.symm.trans hrun
    exact (Prod.mk.inj (Option.some.inj this)).1
  subst hm
  have hmem : (inject_relro_code env obj w).obj.mem = mem2 := by rw [hobj]
  have hN2 : e_phnum mem2 = e_phnum obj.mem := by
    rw [← hN1]
    exact load_le_congr _ _ _ _ (fun k h1 h2 => hfr k (by omega))
  have hmap : phdr_table mem2 obj.phdr =
      (phdr_table obj.mem obj.phdr).map (fun p =>
        if p.p_type = PT_NOTE then stub_phdr obj.size env.relro_stub_size else p) := by
    simp only [phdr_table, hN2, List.map_map]
    apply List.map_congr_left
    intro j hj
    have hj2 : j < e_phnum obj.mem := List.mem_range.1 hj
    simp only [Function.comp]
    rw [hent j (Nat.zero_le j) hj2, hent1 j hj2]
  rw [hmem]
  have hidx : ∀ (i : Nat) (p : Phdr), (phdr_table obj.mem obj.phdr)[i]? = some p →
      (phdr_table mem2 obj.phdr)[i]? =
        some (if p.p_type = PT_NOTE then stub_phdr obj.size env.relro_stub_size else p) := by
    intro i p hi
    rw [hmap, List.getElem?_map, hi]
    rfl
  have hne : ∀ p : Phdr, p.p_type = PT_NOTE →
      some (stub_phdr obj.size env.relro_stub_size) ≠ some p := by
    intro p hp heq
    have e : (stub_phdr obj.size env.relro_stub_size).p_type = p.p_type := by
      rw [Option.some.inj heq]
    rw [hp] at e
    have e2 : (stub_phdr obj.size env.relro_stub_size).p_type = 1 := rfl
    rw [e2] at e
    exact absurd e (by decide)
  refine ⟨hN2, by rw [hobj], hmap, ?_, ?_⟩
  · obtain ⟨p, hp, hpn⟩ := hnote
    obtain ⟨i, hi⟩ := List.getElem?_of_mem hp
    refine ⟨i, ?_⟩
    rw [hidx i p hi, hi, if_pos hpn]
    exact hne p hpn
  · intro i p hi
    refine ⟨fun hp => by rw [hidx i p hi, if_pos hp],
      fun hp => by rw [hidx i p hi, if_neg hp], ?_⟩
    rw [hidx i p hi]
    by_cases hp : p.p_type = PT_NOTE
    · simp only [hp, if_true, iff_true]
      exact hne p hp
    · simp [hp]

/-- Witness for C4 (amended): on the 600-byte image with the layout text, data, note,
relro the single note entry is rewritten and the other three entries stay; the 56
bytes of the rewritten entry reach the output file. -/
theorem note_entries_rewritten_witness :
    phdr_table (inject_relro_code demo_env (demo_obj table_one_note)
      (demo_world table_one_note)).obj.mem 64 =
      [seg_text, seg_data, stub_phdr 600 32, seg_relro] ∧
    ((main demo_env 2 (demo_world table_one_note)).world.target.map
      (fun f => (f.bytes.drop 176).take 56)) =
      some [0x01, 0, 0, 0, 0x05, 0, 0, 0,
            0x58, 0x02, 0, 0, 0, 0, 0, 0,
            0x58, 0x02, 0x00, 0x0c, 0, 0, 0, 0,
            0x58, 0x02, 0x00, 0x0c, 0, 0, 0, 0,
            0x20, 0x04, 0, 0, 0, 0, 0, 0,
            0x20, 0x04, 0, 0, 0, 0, 0, 0,
            0x00, 0x00, 0x20, 0, 0, 0, 0, 0] := by
  refine ⟨?_, by decide!⟩
  have h := (note_entries_rewritten demo_env (demo_obj table_one_note)
    (demo_world table_one_note) 8 (by decide) (by decide) (by decide!) (by decide!)
    (by decide) (by decide!) (by decide!) (by decide!)).2.2.1
  exact h.trans (by decide!)

/-- C4 as stated fails: on a table with two note entries the injection succeeds and
both note entries are rewritten, so two entries differ from the table before. -/
theorem two_notes_counterexample :
    file_table (demo_file table_two_notes) = [seg_text, seg_data, seg_note, seg_note2] ∧
    (main demo_env 2 (demo_world table_two_notes)).exit = Exit.status 0 ∧
    ((main demo_env 2 (demo_world table_two_notes)).world.target.map file_table) =
      some [seg_text, seg_data, seg_stub, seg_stub] ∧
    ((main demo_env 2 (demo_world table_two_notes)).obj.map
      (fun o => phdr_table o.mem o.phdr)) = some [seg_text, seg_data, seg_stub, seg_stub] ∧
    seg_note ≠ seg_stub ∧ seg_note2 ≠ seg_stub := by
  decide!

/-! ## The injector on concrete images -/

/-- C5: on a table without a note entry, with both symbols resolved and the startup
routine inside the buffer, `inject_relro_code` does not return false: it patches the
buffer, writes the 600 buffer bytes, the 4 bytes of `main` and as many stub bytes as
the unassigned `injection_size` happens to hold (here 0), replaces the target file
and returns true. -/
theorem no_note_not_rejected :
    file_table (demo_file table_no_note) = table_no_note ∧
    (∀ p ∈ table_no_note, p.p_type ≠ PT_NOTE) ∧
    (_elf_symbol_by_name (demo_obj table_no_note) name_main default).1 = true ∧
    (_elf_symbol_by_name (demo_obj table_no_note) name_generic_start_main default).1 = true ∧
    _elf_text_pointer (demo_obj table_no_note) 0x400008 = some 8 ∧
    (inject_relro_code demo_env (demo_obj table_no_note)
      (demo_world table_no_note)).outcome ≠ Outcome.ret false ∧
    (inject_relro_code demo_env (demo_obj table_no_note)
      (demo_world table_no_note)).outcome = Outcome.ret true ∧
    ((inject_relro_code demo_env (demo_obj table_no_note)
      (demo_world table_no_note)).world.target.map (fun f => f.bytes.length)) = some 604 ∧
    (inject_relro_code demo_env (demo_obj table_no_note)
      (demo_world table_no_note)).obj.mem ≠ (demo_obj table_no_note).mem ∧
    _elf_open_object (demo_world table_no_note) = some (demo_obj table_no_note) ∧
    (main demo_env 2 (demo_world table_no_note)).exit = Exit.status 0 := by
  decide!

/-- C3: on the 600-byte image without a note entry the injection succeeds with a
32-byte stub, yet the file it leaves has 604 bytes when the unassigned
`injection_size` holds 0 and 611 bytes when it holds 7, not 600 + 4 + 32. -/
theorem stub_length_lost_without_note :
    demo_env.relro_stub_size = 32 ∧ seven_env.relro_stub_size = 32 ∧
    (demo_obj table_no_note).size = 600 ∧
    (main demo_env 2 (demo_world table_no_note)).exit = Exit.status 0 ∧
    ((main demo_env 2 (demo_world table_no_note)).world.target.map
      (fun f => f.bytes.length)) = some 604 ∧
    (main seven_env 2 (demo_world table_no_note)).exit = Exit.status 0 ∧
    ((main seven_env 2 (demo_world table_no_note)).world.target.map
      (fun f => f.bytes.length)) = some 611 ∧
    ((main seven_env 2 (demo_world table_no_note)).world.target.map
      (fun f => f.bytes.drop 600)) =
        some [0x00, 0x01, 0x40, 0x00, 0x55, 0x56, 0x57, 0x58, 0x59, 0x5a, 0x5b] := by
  decide!

/-- C10: `_elf_text_pointer` accepts offset 256 in a 600-byte buffer, yet the
trampoline bytes at offsets 836 to 841 lie past the end of the buffer; the stores are
out of bounds, land in the rest of the mapped page, and the call still returns
true. -/
theorem trampoline_out_of_bounds :
    _elf_text_pointer late_obj 0x400100 = some 256 ∧
    (_elf_symbol_by_name late_obj name_generic_start_main default).2.st_value = 0x400100 ∧
    late_obj.size = 600 ∧ late_file.bytes.length = 600 ∧ late_obj.mem.length = 4096 ∧
    ¬ (256 + 585 < late_obj.size) ∧
    (inject_relro_code demo_env late_obj late_world).outcome = Outcome.ret true ∧
    ((inject_relro_code demo_env late_obj late_world).obj.mem.drop 836).take 6 =
      [0x68, 0x5c, 0x02, 0x00, 0x0c, 0xc3] ∧
    _elf_open_object late_world = some late_obj ∧
    (main demo_env 2 late_world).exit = Exit.status 0 := by
  decide!

/-- C2: on the layout text, data, a further loadable segment, note, the injection
succeeds and the saved entry 0x400100 lies at 0x0c000258, the address of the rewritten
header; the stub takes the third loadable segment for its own, reads at 0x700180 and
calls 0. -/
theorem stub_reads_wrong_segment :
    (main demo_env 2 (demo_world table_three_loads)).exit = Exit.status 0 ∧
    ((main demo_env 2 (demo_world table_three_loads)).world.target.map process_table) =
      some (some [seg_text, seg_data, seg_data2, seg_stub]) ∧
    (_elf_symbol_by_name (demo_obj table_three_loads) name_main default).2.st_value % U32 =
      0x400100 ∧
    ((main demo_env 2 (demo_world table_three_loads)).world.target.map
      (fun f => image_load f 0xc000258 4)) = some (some 0x400100) ∧
    ((main demo_env 2 (demo_world table_three_loads)).world.target.map
      (fun f => run_stub f 0xc00025c 0xc00027c)) =
        some ⟨[(0x600000, 4096, PROT_READ)], false, false, 0x700180, some 0⟩ := by
  decide!

end Relros
